import Mathlib

set_option maxRecDepth 8000

namespace Lab4

/-!
Shallow embedding of the storage engine of mikhmol/Architecture_Lab4
(package datastore, the final draft in src/unnamed/part_001) and of the
load balancer (src/cmd/lb/balancer.go).  Byte strings are modelled as
List Nat, the file system as an association list from file name to byte
content, Go maps as association lists.
-/

abbrev Bytes := List Nat

/-- Association-list lookup; models a Go map read m[k]. -/
def alGet {K V : Type} [DecidableEq K] (m : List (K × V)) (k : K) : Option V :=
  match m with
  | [] => none
  | (k', v) :: rest => if k = k' then some v else alGet rest k

/-- Association-list insert or overwrite; models a Go map write m[k] = v. -/
def alPut {K V : Type} [DecidableEq K] (m : List (K × V)) (k : K) (v : V) :
    List (K × V) :=
  match m with
  | [] => [(k, v)]
  | (k', v') :: rest => if k = k' then (k, v) :: rest else (k', v') :: alPut rest k v

/-- Error kinds surfaced by the engine. -/
inductive DbErr where
  /-- ErrNotFound = record does not exist -/
  | notFound
  /-- opaque I/O failure (os.Open, os.File.Stat, os.File.Write, os.Remove) -/
  | ioErr
  /-- the literal "corrupted file" error of the segment scan loops -/
  | corrupted
  /-- strconv.Atoi failure on a segment file name -/
  | parseErr
  /-- a Go runtime panic (binary.Uint32 on a short slice, Decode on a bad frame) -/
  | crashed
deriving DecidableEq

/-- Modelled from the spec: the record type of the repository's entry codec
file (entry.go, holding entry.Encode, entry.Decode and readValue) is not under
src/; spec section 3 defines the record as a pair of opaque byte strings. -/
structure Entry where
  key : Bytes
  value : Bytes
deriving DecidableEq

/-- Little-endian encoding of a 32-bit length, 4 bytes. -/
def u32LE (n : Nat) : Bytes :=
  [n % 256, n / 256 % 256, n / 65536 % 256, n / 16777216 % 256]

/-- binary.LittleEndian.Uint32 on the first four bytes (callers guard the
length; a missing byte reads as 0 only where the Go code would panic,
which the scan loops surface as DbErr.crashed). -/
def leU32 (bs : Bytes) : Nat :=
  bs.getD 0 0 + 256 * bs.getD 1 0 + 65536 * bs.getD 2 0 + 16777216 * bs.getD 3 0

/-- Modelled from the spec: entry.Encode (entry.go is not under src/).
Spec section 3: [total_size u32 LE][key_len u32 LE][key][value_len u32 LE][value],
total_size counts the whole frame including itself. -/
def encodeEntry (e : Entry) : Bytes :=
  u32LE (12 + e.key.length + e.value.length) ++ u32LE e.key.length ++ e.key ++
    u32LE e.value.length ++ e.value

/-- Modelled from the spec: entry.Decode (entry.go is not under src/).
Fails when total_size disagrees with the buffer length or an inner length
overruns the frame (spec section 4.1). -/
def decodeEntry (data : Bytes) : Option Entry :=
  if data.length < 8 then none
  else
    let total := leU32 data
    if total ≠ data.length then none
    else
      let r1 := data.drop 4
      let klen := leU32 r1
      if r1.length < 4 + klen + 4 then none
      else
        let key := (r1.drop 4).take klen
        let r2 := r1.drop (4 + klen)
        let vlen := leU32 r2
        if (r2.drop 4).length < vlen then none
        else some { key := key, value := (r2.drop 4).take vlen }

/-- Modelled from the spec: readValue (entry.go is not under src/).
Spec section 4.1: skip the size header, read key_len, skip the key,
read value_len bytes.  The stream argument is the file suffix after Seek. -/
def readValue (bs : Bytes) : Except DbErr Bytes :=
  let r1 := bs.drop 4
  if r1.length < 4 then .error .ioErr
  else
    let klen := leU32 r1
    let r2 := (r1.drop 4).drop klen
    if r2.length < 4 then .error .ioErr
    else
      let vlen := leU32 r2
      let r3 := r2.drop 4
      if r3.length < vlen then .error .ioErr
      else .ok (r3.take vlen)

def bufSize : Nat := 8192

/-- One segment-file scan, modelling the decode loop shared by Db.recover
(part_001 lines 133-168) and Db.mergeSegmentFiles (lines 326-359).
After in.Peek(bufSize) the bufio reader holds min bufSize remaining buffered
bytes, and in.Read(data) returns only buffered bytes, so the bytes read are
n = min size (min bufSize remaining); the loop then demands n = size and
otherwise returns the "corrupted file" error.  Returns the (offset, entry)
pairs of the file in order plus the final offset. -/
def scanLoop (fuel : Nat) (rem : Bytes) (off : Nat) :
    Except DbErr (List (Nat × Entry) × Nat) :=
  match fuel with
  | 0 => .error .crashed
  | fuel + 1 =>
    if rem.length = 0 then .ok ([], off)
    else if rem.length < 4 then .error .crashed
    else
      let size := leU32 rem
      let n := min size (min bufSize rem.length)
      if n ≠ size then .error .corrupted
      else
        match decodeEntry (rem.take n) with
        | none => .error .crashed
        | some e =>
          match scanLoop fuel (rem.drop n) (off + n) with
          | .error er => .error er
          | .ok (l, fin) => .ok ((off, e) :: l, fin)

/-- Scan a whole segment file from offset 0.  Each loop step consumes at
least one byte, so content.length + 1 fuel never runs out. -/
def scanSegment (content : Bytes) : Except DbErr (List (Nat × Entry) × Nat) :=
  scanLoop (content.length + 1) content 0

/-- The engine state of part_001 (struct Db).  The out *os.File handle is
represented by outPath into dir; the sync primitives serialize operations,
so states are related by whole operations. -/
structure Db where
  dir : List (String × Bytes)
  outPath : String
  outOffset : Nat
  outSegment : Nat
  index : List (Bytes × Nat)
  fileIndex : List (Bytes × Nat)
  maxFileSize : Nat
deriving DecidableEq

/-- Byte-wise lexicographic comparison of Go strings (segment names are
ASCII, so code-point order below coincides with Go's byte order). -/
def charsLt : List Char → List Char → Bool
  | [], [] => false
  | [], _ :: _ => true
  | _ :: _, [] => false
  | a :: as, b :: bs =>
    if a < b then true else if b < a then false else charsLt as bs

def strLtB (a b : String) : Bool := charsLt a.data b.data

def listPre : List Char → List Char → Bool
  | [], _ => true
  | _ :: _, [] => false
  | a :: as, b :: bs => if a = b then listPre as bs else false

/-- strings.HasPrefix s pre. -/
def goStartsWith (s pre : String) : Bool := listPre pre.data s.data

/-- strings.TrimPrefix s pre. -/
def goTrimPre (s pre : String) : String :=
  if goStartsWith s pre then { data := s.data.drop pre.data.length } else s

/-- defaultOutFileName of part_001. -/
def segName : String := "data-segment"

/-- defaultOutFileName plus the dash that every call site appends. -/
def segNameDash : String := "data-segment-"

/-- The file name defaultOutFileName + "-" + strconv.Itoa n. -/
def segPath (n : Nat) : String := segNameDash ++ Nat.repr n

def digitVal (c : Char) : Option Nat :=
  if 48 ≤ c.toNat ∧ c.toNat ≤ 57 then some (c.toNat - 48) else none

def atoiCore : List Char → Nat → Option Nat
  | [], acc => some acc
  | c :: cs, acc =>
    match digitVal c with
    | none => none
    | some d => atoiCore cs (10 * acc + d)

/-- strconv.Atoi restricted to the unsigned decimal numerals that name
segment files; anything else is a parse error, as in Go. -/
def atoiOpt (s : String) : Option Nat :=
  if s.data.isEmpty then none else atoiCore s.data 0

def insertName (f : String × Bytes) : List (String × Bytes) → List (String × Bytes)
  | [] => [f]
  | g :: gs => if strLtB f.1 g.1 then f :: g :: gs else g :: insertName f gs

/-- Ascending sort of a directory listing by file name; models both
ioutil.ReadDir's sorted result and the sort.Slice call of Db.recover
(part_001 lines 103-105). -/
def sortByName (l : List (String × Bytes)) : List (String × Bytes) :=
  l.foldr insertName []

def insertStr (s : String) : List String → List String
  | [] => [s]
  | t :: ts => if strLtB s t then s :: t :: ts else t :: insertStr s ts

/-- sort.Strings. -/
def sortStrings (l : List String) : List String := l.foldr insertStr []

def maxSegLoop : List (String × Bytes) → Nat → Except DbErr Nat
  | [], acc => .ok acc
  | (name, _) :: rest, acc =>
    if goStartsWith name segNameDash then
      match atoiOpt (goTrimPre name segNameDash) with
      | none => .error .parseErr
      | some i => maxSegLoop rest (if acc < i then i else acc)
    else maxSegLoop rest acc

/-- getMaxSegmentNumber, part_001 lines 272-290. -/
def getMaxSegmentNumber (dir : List (String × Bytes)) : Except DbErr Nat :=
  maxSegLoop dir 0

/-- The per-file index rebuild of Db.recover: for each decoded entry set
index[e.key] := local offset and fileIndex[e.key] := segment (lines 162-166). -/
def applyEntries (db : Db) (segment : Nat) (l : List (Nat × Entry)) : Db :=
  l.foldl (fun db oe =>
    { db with index := alPut db.index oe.2.key oe.1,
              fileIndex := alPut db.fileIndex oe.2.key segment }) db

def recoverGo : List (String × Bytes) → Db → Except DbErr Db
  | [], db => .ok db
  | (name, content) :: rest, db =>
    if goStartsWith name segNameDash then
      match atoiOpt (goTrimPre name segNameDash) with
      | none => .error .parseErr
      | some segment =>
        match scanSegment content with
        | .error er => .error er
        | .ok (entries, fin) =>
          let db1 := applyEntries { db with outOffset := 0 } segment entries
          recoverGo rest { db1 with outOffset := fin }
    else recoverGo rest db

/-- Db.recover, part_001 lines 93-175: walk the directory in ascending name
order, rebuilding both indices and leaving outOffset at the end of the last
file processed. -/
def recoverDb (db : Db) : Except DbErr Db :=
  recoverGo (sortByName db.dir) db

/-- NewDb, part_001 lines 54-88: pick the largest existing segment id, open
(creating if missing) that file for append, then recover the indices. -/
def NewDb (dir0 : List (String × Bytes)) (maxFileSize : Nat) : Except DbErr Db :=
  match getMaxSegmentNumber dir0 with
  | .error er => .error er
  | .ok maxSeg =>
    let outputPath := segPath maxSeg
    let dir1 := if (alGet dir0 outputPath).isSome then dir0 else alPut dir0 outputPath []
    recoverDb { dir := dir1, outPath := outputPath, outOffset := 0,
                outSegment := maxSeg, index := [], fileIndex := [],
                maxFileSize := maxFileSize }

/-- Db.Get, part_001 lines 181-222, as a state transformer: the RLock and
the semaphore acquire (which cannot fail under context.Background) guard the
body, then both indices are read, the referenced segment file is opened and
seeked and one value is read.  The Db component of the result is the engine
state when the call returns. -/
def GetS (db : Db) (key : Bytes) : Except DbErr Bytes × Db :=
  match alGet db.fileIndex key with
  | none => (.error .notFound, db)
  | some segment =>
    match alGet db.index key with
    | none => (.error .notFound, db)
    | some position =>
      match alGet db.dir (segPath segment) with
      | none => (.error .ioErr, db)
      | some content => (readValue (content.drop position), db)

/-- O_APPEND write of bs to the file called name. -/
def appendFile (dir : List (String × Bytes)) (name : String) (bs : Bytes) :
    List (String × Bytes) :=
  alPut dir name (((alGet dir name).getD []) ++ bs)

/-- The rotation step of Db.Put (part_001 lines 234-255): when the stat size
strictly exceeds the ceiling, close the active file, bump outSegment, open
(creating if missing) the new segment file and reset outOffset; the merge
goroutine spawned here runs later under the lock and is a separate
transition. -/
def putRotate (db : Db) (content : Bytes) : Db :=
  if db.maxFileSize < content.length then
    { db with outSegment := db.outSegment + 1,
              outPath := segPath (db.outSegment + 1),
              dir := if (alGet db.dir (segPath (db.outSegment + 1))).isSome
                     then db.dir
                     else alPut db.dir (segPath (db.outSegment + 1)) [],
              outOffset := 0 }
  else db

/-- The append step of Db.Put (part_001 lines 257-268): write the encoded
frame and, only on success, update both indices and advance outOffset. -/
def putAppend (db1 : Db) (key value : Bytes) (writeOk : Bool) :
    Option DbErr × Db :=
  if writeOk then
    let bytes := encodeEntry { key := key, value := value }
    (none, { db1 with dir := appendFile db1.dir db1.outPath bytes,
                      index := alPut db1.index key db1.outOffset,
                      fileIndex := alPut db1.fileIndex key db1.outSegment,
                      outOffset := db1.outOffset + bytes.length })
  else (some .ioErr, db1)

/-- Db.Put, part_001 lines 224-269.  The outcome of the db.out.Write call is
the writeOk parameter (false: the write fails with no bytes written); the
O_CREATE open of the rotated-to file succeeds. -/
def Put (db : Db) (key value : Bytes) (writeOk : Bool) : Option DbErr × Db :=
  match alGet db.dir db.outPath with
  | none => (some .ioErr, db)
  | some content => putAppend (putRotate db content) key value writeOk

/-- Observable filesystem events of one merge pass. -/
inductive MergeEv where
  | removeFile (name : String)
  | appendSeg0 (e : Entry)
deriving DecidableEq

structure MergeResult where
  err : Option DbErr
  db : Db
  trace : List MergeEv
deriving DecidableEq

/-- GetFilesToMerge, part_001 lines 411-424: keep the names that carry the
segment name dash but skip every name that has defaultOutFileName + "-" +
strconv.Itoa outSegment as a string prefix; sort ascending. -/
def GetFilesToMerge (files : List (String × Bytes)) (outSegment : Nat) :
    List String :=
  sortStrings (files.filterMap (fun f =>
    if goStartsWith f.1 segNameDash &&
        ! goStartsWith f.1 (segNameDash ++ Nat.repr outSegment)
    then some f.1 else none))

/-- The scan phase of the merge (lines 316-361): read every merge-set file in
order and fold its entries into the scratch mergedData map. -/
def mergeScan : List String → List (String × Bytes) → List (Bytes × Entry) →
    Except DbErr (List (Bytes × Entry))
  | [], _, acc => .ok acc
  | name :: rest, dir, acc =>
    match alGet dir name with
    | none => .error .ioErr
    | some content =>
      match scanSegment content with
      | .error er => .error er
      | .ok (entries, _) =>
        mergeScan rest dir (entries.foldl (fun m oe => alPut m oe.2.key oe.2) acc)

/-- The removal phase of the merge (lines 363-375), applied to
fileNames.drop 1 because index 0 is skipped; stops at the first os.Remove
error. -/
def removeLoop :
    List (String × Bytes) → List String →
      Option DbErr × List (String × Bytes) × List MergeEv
  | dir, [] => (none, dir, [])
  | dir, name :: rest =>
    if (alGet dir name).isSome then
      let dir1 := dir.filter (fun f => !(f.1 == name))
      match removeLoop dir1 rest with
      | (er, dir2, tr) => (er, dir2, .removeFile name :: tr)
    else (some .ioErr, dir, [])

/-- The write phase of the merge (lines 386-403): append each scratch entry
to segment 0 and, when the key's authoritative segment differs from the
active one, repoint both indices at the segment-0 copy. -/
def mergeWriteLoop (db : Db) (entryOffset : Nat) (seg0 : Bytes) :
    List (Bytes × Entry) → Db × Bytes × List MergeEv
  | [] => (db, seg0, [])
  | (_, e) :: rest =>
    let bytes := encodeEntry e
    let db1 :=
      match alGet db.fileIndex e.key with
      | some segment =>
        if segment ≠ db.outSegment then
          { db with index := alPut db.index e.key entryOffset,
                    fileIndex := alPut db.fileIndex e.key 0 }
        else db
      | none => db
    let r := mergeWriteLoop db1 (entryOffset + bytes.length) (seg0 ++ bytes) rest
    (r.1, r.2.1, .appendSeg0 e :: r.2.2)

/-- Db.mergeSegmentFiles, part_001 lines 293-409.  The phase order mirrors
the source faithfully: the consumed segment files are removed (lines 363-375)
before segment 0 is truncated and rewritten (lines 377-403). -/
def mergeSegmentFiles (db : Db) : MergeResult :=
  let files := sortByName db.dir
  if files.length ≤ 2 then { err := none, db := db, trace := [] }
  else
    let fileNames := GetFilesToMerge files db.outSegment
    match mergeScan fileNames db.dir [] with
    | .error er => { err := some er, db := db, trace := [] }
    | .ok mergedData =>
      match removeLoop db.dir (fileNames.drop 1) with
      | (some er, dir1, tr) =>
        { err := some er, db := { db with dir := dir1 }, trace := tr }
      | (none, dir1, tr) =>
        match alGet dir1 (segPath 0) with
        | none => { err := some .ioErr, db := { db with dir := dir1 }, trace := tr }
        | some _ =>
          let dir2 := alPut dir1 (segPath 0) []
          let r := mergeWriteLoop { db with dir := dir2 } 0 [] mergedData
          { err := none,
            db := { r.1 with dir := alPut r.1.dir (segPath 0) r.2.1 },
            trace := tr ++ r.2.2 }

/-- The two in-memory indices have the same key set. -/
def MapsSame (i f : List (Bytes × Nat)) : Prop :=
  ∀ k, (alGet i k).isSome ↔ (alGet f k).isSome

/-- Spec section 3 invariant: a key is in the offset index iff it is in the
segment index. -/
def SameDom (db : Db) : Prop := MapsSame db.index db.fileIndex

/-- Engine states reachable through the public operations: an open (NewDb)
over an arbitrary directory, then any interleaving of Put (either write
outcome), Get and merge passes, serialized by the Db mutex. -/
inductive Reach : Db → Prop where
  | init : ∀ d m db, NewDb d m = .ok db → Reach db
  | put : ∀ db k v w, Reach db → Reach (Put db k v w).2
  | get : ∀ db k, Reach db → Reach (GetS db k).2
  | merge : ∀ db, Reach db → Reach (mergeSegmentFiles db).db

def isAppendEv : MergeEv → Bool
  | .appendSeg0 _ => true
  | _ => false

def isRemoveEv : MergeEv → Bool
  | .removeFile _ => true
  | _ => false

/-- The order property claimed of a merge pass: once a file has been removed,
no further live record is appended into segment 0 after it; equivalently
every delete happens after the last append. -/
def removesAfterAppends : List MergeEv → Bool
  | [] => true
  | e :: rest =>
    (!(isRemoveEv e) || rest.all (fun x => !(isAppendEv x))) &&
      removesAfterAppends rest

/-- A directory with three segments, ids 0, 1 and 2, one record each;
the active segment is 2, so segments 0 and 1 form the merge set. -/
def dbMerge3 : Db :=
  { dir := [("data-segment-0", encodeEntry ⟨[97], [48]⟩),
            ("data-segment-1", encodeEntry ⟨[98], [49]⟩),
            ("data-segment-2", encodeEntry ⟨[99], [50]⟩)],
    outPath := "data-segment-2", outOffset := 14, outSegment := 2,
    index := [([97], 0), ([98], 0), ([99], 0)],
    fileIndex := [([97], 0), ([98], 1), ([99], 2)],
    maxFileSize := 10 }

/-- A directory holding the same key in segment 2 (value 87) and in
segment 10 (value 86): a state a crash can leave behind after rotations
past id 9 with compaction pending. -/
def dirLex : List (String × Bytes) :=
  [("data-segment-2", encodeEntry ⟨[107], [87]⟩),
   ("data-segment-10", encodeEntry ⟨[107], [86]⟩)]

/-- The engine state NewDb builds over dirLex. -/
def dbLex : Db :=
  { dir := dirLex, outPath := "data-segment-10", outOffset := 14,
    outSegment := 10, index := [([107], 0)], fileIndex := [([107], 2)],
    maxFileSize := 100 }

/-- A directory with segments 0, 1 and 10 for the merge-set computation
with active segment 1. -/
def filesTen : List (String × Bytes) :=
  [("data-segment-0", []), ("data-segment-1", []), ("data-segment-10", [])]

/-- An engine whose active segment 0 holds 2 bytes with a 1-byte ceiling,
so the next Put rotates. -/
def dbFull : Db :=
  { dir := [("data-segment-0", [1, 2])], outPath := "data-segment-0",
    outOffset := 2, outSegment := 0, index := [], fileIndex := [],
    maxFileSize := 1 }

/-- A freshly opened engine over an empty directory. -/
def dbFresh : Db :=
  { dir := [("data-segment-0", [])], outPath := "data-segment-0",
    outOffset := 0, outSegment := 0, index := [], fileIndex := [],
    maxFileSize := 10 }

namespace LB

def maxInt64 : Int := 9223372036854775807

/-- The range loop of getMinByteServer, balancer.go lines 95-105; the
association list fixes one iteration order of the Go map, which is
unspecified. -/
def minByteLoop : List (String × Int) → String → Int → String
  | [], minServer, _ => minServer
  | (server, bytes) :: rest, minServer, minBytes =>
    if bytes < minBytes then minByteLoop rest server bytes
    else minByteLoop rest minServer minBytes

/-- getMinByteServer: start from the empty server and math.MaxInt64. -/
def getMinByteServer (serverBytes : List (String × Int)) : String :=
  minByteLoop serverBytes "" maxInt64

structure Resp where
  statusCode : Nat
  headers : List (String × String)
  body : Bytes
deriving DecidableEq

structure RW where
  statusWritten : Option Nat
  headers : List (String × String)
deriving DecidableEq

structure FwdResult where
  failed : Bool
  rw : RW
  serverBytes : List (String × Int)
deriving DecidableEq

/-- forward, balancer.go lines 58-92.  The outcome of the proxied round trip
is the resp parameter (none models a transport error) and copyOk models the
io.Copy outcome; on transport error the handler writes 503. -/
def forward (dst : String) (trace : Bool) (resp : Option Resp) (copyOk : Bool)
    (serverBytes : List (String × Int)) : FwdResult :=
  match resp with
  | some r =>
    let hs := r.headers
    let hs1 := if trace then alPut hs "lb-from" dst else hs
    { failed := false,
      rw := { statusWritten := some r.statusCode, headers := hs1 },
      serverBytes :=
        if copyOk then
          alPut serverBytes dst (((alGet serverBytes dst).getD 0) + r.body.length)
        else serverBytes }
  | none =>
    { failed := true,
      rw := { statusWritten := some 503, headers := [] },
      serverBytes := serverBytes }

end LB

/-! Lemmas about the association-list maps. -/

theorem alGet_alPut_self {K V : Type} [DecidableEq K] (m : List (K × V)) (k : K)
    (v : V) : alGet (alPut m k v) k = some v := by
  induction m with
  | nil => simp [alPut, alGet]
  | cons p rest ih =>
    obtain ⟨k', v'⟩ := p
    by_cases h : k = k'
    · simp [alPut, h, alGet]
    · simp [alPut, h, alGet, ih]

theorem alGet_alPut_isSome {K V : Type} [DecidableEq K] (m : List (K × V))
    (k : K) (v : V) (k' : K) :
    (alGet (alPut m k v) k').isSome ↔ k' = k ∨ (alGet m k').isSome := by
  induction m with
  | nil =>
    by_cases h : k' = k <;> simp [alPut, alGet, h]
  | cons p rest ih =>
    obtain ⟨a, b⟩ := p
    by_cases hka : k = a
    · subst hka
      by_cases h : k' = k <;> simp [alPut, alGet, h]
    · by_cases h : k' = a
      · subst h
        simp [alPut, hka, alGet]
      · simp [alPut, hka, alGet, h, ih]

/-! Lemmas about the spec-modelled codec. -/

theorem leU32_u32LE (n : Nat) (h : n < 4294967296) (rest : Bytes) :
    leU32 (u32LE n ++ rest) = n := by
  simp only [u32LE, leU32, List.cons_append, List.nil_append,
    List.getD_cons_zero, List.getD_cons_succ]
  omega

theorem drop4_u32LE (n : Nat) (rest : Bytes) : (u32LE n ++ rest).drop 4 = rest := by
  simp [u32LE]

theorem length_encodeEntry (e : Entry) :
    (encodeEntry e).length = 12 + e.key.length + e.value.length := by
  simp [encodeEntry, u32LE]
  omega

theorem readValue_encodeEntry (e : Entry) (rest : Bytes)
    (h : 12 + e.key.length + e.value.length < 4294967296) :
    readValue (encodeEntry e ++ rest) = .ok e.value := by
  have hk : e.key.length < 4294967296 := by omega
  have hv : e.value.length < 4294967296 := by omega
  simp only [encodeEntry, readValue, List.append_assoc, drop4_u32LE,
    leU32_u32LE _ hk, leU32_u32LE _ hv, List.drop_left, List.take_left]
  simp only [u32LE, List.length_append, List.length_cons, List.length_nil]
  split_ifs <;> first | rfl | omega

theorem readValue_encodeEntry_nil (e : Entry)
    (h : 12 + e.key.length + e.value.length < 4294967296) :
    readValue (encodeEntry e) = .ok e.value := by
  have h1 := readValue_encodeEntry e [] h
  simpa using h1

/-- Helper: no branch of Get writes any field of the engine state. -/
theorem getS_snd (db : Db) (k : Bytes) : (GetS db k).2 = db := by
  unfold GetS
  repeat' split
  all_goals rfl

/-- C10: Get never modifies the engine state: whatever the outcome, the
directory, both indices, outOffset, outSegment and outPath after the call
are those before it. -/
theorem kv_get_leaves_state_unchanged (db : Db) (k : Bytes) :
    (GetS db k).2 = db :=
  getS_snd db k

/-- C5: Put rotates exactly when the active segment size strictly exceeds
maxFileSize (for either write outcome), and a rotation increments outSegment
by one and resets outOffset to zero before the append, so the fresh record
is indexed at offset 0 and the offset cursor ends at the frame length. -/
theorem kv_put_rotates_iff_strictly_exceeds (db : Db) (k v c : Bytes)
    (hc : alGet db.dir db.outPath = some c) :
    ((Put db k v true).2.outSegment =
      if db.maxFileSize < c.length then db.outSegment + 1 else db.outSegment) ∧
    ((Put db k v false).2.outSegment =
      if db.maxFileSize < c.length then db.outSegment + 1 else db.outSegment) ∧
    (db.maxFileSize < c.length →
      alGet (Put db k v true).2.index k = some 0 ∧
      (Put db k v true).2.outOffset = (encodeEntry ⟨k, v⟩).length ∧
      (Put db k v false).2.outOffset = 0) := by
  unfold Put putAppend putRotate
  rw [hc]
  by_cases hrot : db.maxFileSize < c.length <;>
    simp [hrot, alGet_alPut_self]

/-- Witness for C5 at the concrete over-full engine dbFull. -/
theorem kv_put_rotates_iff_strictly_exceeds_w :
    alGet dbFull.dir dbFull.outPath = some [1, 2] ∧
    (Put dbFull [5] [6] true).2.outSegment =
      (if dbFull.maxFileSize < [1, 2].length then dbFull.outSegment + 1
       else dbFull.outSegment) :=
  ⟨by decide,
   (kv_put_rotates_iff_strictly_exceeds dbFull [5] [6] [1, 2] (by decide)).1⟩

/-- C6 counterexample: on dbFull (active size 2, ceiling 1, outOffset 2) a
Put whose append fails returns the error, yet outOffset has changed from 2
to 0, because the rotation reset it before the failing write. -/
theorem kv_put_fail_changes_outOffset :
    (Put dbFull [5] [6] false).1 = some .ioErr ∧
    dbFull.outOffset = 2 ∧ (Put dbFull [5] [6] false).2.outOffset = 0 := by
  decide

/-- C6 amended: a Put whose append fails returns an error and leaves both
indices untouched; outOffset is also untouched unless the call rotated
(outSegment changed), in which case outOffset has been reset to 0 by the
rotation that preceded the failing append. -/
theorem kv_put_fail_leaves_indices (db : Db) (k v : Bytes) :
    (Put db k v false).1.isSome = true ∧
    (Put db k v false).2.index = db.index ∧
    (Put db k v false).2.fileIndex = db.fileIndex ∧
    ((Put db k v false).2.outSegment = db.outSegment →
      (Put db k v false).2.outOffset = db.outOffset) ∧
    ((Put db k v false).2.outSegment ≠ db.outSegment →
      (Put db k v false).2.outOffset = 0) := by
  unfold Put putAppend putRotate
  rcases h : alGet db.dir db.outPath with _ | c
  · simp
  · by_cases hrot : db.maxFileSize < c.length <;> simp [hrot]

/-- Witness for C6 at dbFull: the failing Put there rotated, and outOffset
ends at 0. -/
theorem kv_put_fail_leaves_indices_w :
    (Put dbFull [5] [6] false).2.outSegment ≠ dbFull.outSegment ∧
    (Put dbFull [5] [6] false).2.outOffset = 0 :=
  ⟨by decide, (kv_put_fail_leaves_indices dbFull [5] [6]).2.2.2.2 (by decide)⟩

/-- C2: evaluating the merger on the three-segment directory dbMerge3
shows the pass succeeds but its event trace removes the consumed segment
file data-segment-1 before any live record is appended into segment 0:
the claimed delete-after-write order is violated. -/
theorem kv_merge_removes_before_writing :
    (mergeSegmentFiles dbMerge3).err = none ∧
    (mergeSegmentFiles dbMerge3).trace =
      [.removeFile "data-segment-1",
       .appendSeg0 ⟨[97], [48]⟩, .appendSeg0 ⟨[98], [49]⟩] ∧
    removesAfterAppends (mergeSegmentFiles dbMerge3).trace = false := by
  decide

/-- C3 counterexample: with active segment 1 and an existing segment 10,
GetFilesToMerge leaves data-segment-10 out of the merge set even though
10 differs from the active id: the exclusion check is a string prefix
match, not an id comparison. -/
theorem kv_merge_set_misses_segment_ten :
    GetFilesToMerge filesTen 1 = ["data-segment-0"] ∧
    ¬ ("data-segment-10" ∈ GetFilesToMerge filesTen 1) ∧ (10 : Nat) ≠ 1 := by
  decide

/-- C4: recovery over a directory holding key 107 in segments 2 and 10
rebuilds indices that point at segment 2, because the ascending file-name
sort puts data-segment-10 before data-segment-2; the record with the
greatest segment id (10, holding value 86) is shadowed by the older
segment 2 record (value 87), which Get then returns. -/
theorem kv_recover_name_order_beats_id_order :
    (NewDb dirLex 100).toOption = some dbLex ∧
    alGet dbLex.fileIndex [107] = some 2 ∧
    (GetS dbLex [107]).1.toOption = some [87] ∧
    alGet dbLex.dir (segPath 10) = some (encodeEntry ⟨[107], [86]⟩) := by
  decide

/-- C1: from any engine state whose active segment file exists, has length
outOffset and is named for outSegment, with no stale file at the next id, a
successful Put of (k, v) followed directly by Get k returns v.  The three
state hypotheses are the spec section 3 invariants of a live handle; the size
bound keeps the frame lengths inside u32. -/
theorem kv_put_then_get (db : Db) (k v c : Bytes)
    (hpath : db.outPath = segPath db.outSegment)
    (hc : alGet db.dir db.outPath = some c)
    (hlen : c.length = db.outOffset)
    (hfresh : alGet db.dir (segPath (db.outSegment + 1)) = none)
    (hsz : 12 + k.length + v.length < 4294967296) :
    (Put db k v true).1 = none ∧ (GetS (Put db k v true).2 k).1 = .ok v := by
  unfold Put putAppend putRotate
  rw [hc]
  by_cases hrot : db.maxFileSize < c.length
  · constructor
    · simp [hrot, hfresh]
    · simp [hrot, hfresh, GetS, appendFile, alGet_alPut_self]
      exact readValue_encodeEntry_nil ⟨k, v⟩ hsz
  · have hc2 : alGet db.dir (segPath db.outSegment) = some c := hpath ▸ hc
    constructor
    · simp [hrot]
    · simp [hrot, GetS, appendFile, alGet_alPut_self, hc, hpath, hc2]
      rw [← hlen, List.drop_left]
      exact readValue_encodeEntry_nil ⟨k, v⟩ hsz

theorem leU32_encodeEntry (e : Entry)
    (h : 12 + e.key.length + e.value.length < 4294967296) :
    leU32 (encodeEntry e) = 12 + e.key.length + e.value.length := by
  unfold encodeEntry
  simp only [List.append_assoc]
  exact leU32_u32LE _ h _

/-- One unfolding of the scan loop at positive fuel. -/
theorem scanLoop_succ (fuel : Nat) (rem : Bytes) (off : Nat) :
    scanLoop (fuel + 1) rem off =
      (if rem.length = 0 then .ok ([], off)
       else if rem.length < 4 then .error .crashed
       else if min (leU32 rem) (min bufSize rem.length) ≠ leU32 rem then
         .error .corrupted
       else
         match decodeEntry (rem.take (min (leU32 rem) (min bufSize rem.length)))
           with
         | none => .error .crashed
         | some e =>
           match scanLoop fuel
               (rem.drop (min (leU32 rem) (min bufSize rem.length)))
               (off + min (leU32 rem) (min bufSize rem.length)) with
           | .error er => .error er
           | .ok (l, fin) => .ok ((off, e) :: l, fin)) := rfl

/-- Helper for C8: the scan loop rejects any single frame whose total size
exceeds bufSize, because the bufio read returns only the bufSize buffered
bytes and the n = size check then fails with the "corrupted file" error. -/
theorem scanSegment_oversize (e : Entry)
    (h1 : 8192 < 12 + e.key.length + e.value.length)
    (h2 : 12 + e.key.length + e.value.length < 4294967296) :
    scanSegment (encodeEntry e) = .error .corrupted := by
  have hlen := length_encodeEntry e
  have hle := leU32_encodeEntry e h2
  unfold scanSegment
  rw [scanLoop_succ]
  simp only [hlen, hle, bufSize]
  split_ifs with c1 c2 c3
  · exact absurd c1 (by omega)
  · exact absurd c2 (by omega)
  · rfl
  · exact absurd (by omega : min (12 + e.key.length + e.value.length)
      (min 8192 (12 + e.key.length + e.value.length)) ≠
        12 + e.key.length + e.value.length) c3

/-- C8: a record whose encoded frame is larger than bufSize = 8192 bytes
cannot be recovered: reopening a directory whose only segment holds one such
frame fails with the "corrupted file" error instead of rebuilding the index
(frames of exactly 8192 bytes still work, so the boundary is strict). -/
theorem kv_large_frame_breaks_recovery (k v : Bytes)
    (h1 : 8192 < 12 + k.length + v.length)
    (h2 : 12 + k.length + v.length < 4294967296) (m : Nat) :
    NewDb [("data-segment-0", encodeEntry ⟨k, v⟩)] m = .error .corrupted := by
  have hscan := scanSegment_oversize ⟨k, v⟩ h1 h2
  have hpre : goStartsWith "data-segment-0" segNameDash = true := by decide
  have hato : atoiOpt (goTrimPre "data-segment-0" segNameDash) = some 0 := by
    decide
  have hrec : ∀ db0 : Db,
      recoverGo [("data-segment-0", encodeEntry ⟨k, v⟩)] db0 =
        .error .corrupted := by
    intro db0
    simp only [recoverGo, hpre, if_true, hato, hscan]
  have hmax : getMaxSegmentNumber [("data-segment-0", encodeEntry ⟨k, v⟩)] =
      .ok 0 := rfl
  have hdir1 :
      (if (alGet [("data-segment-0", encodeEntry ⟨k, v⟩)] (segPath 0)).isSome
        then [("data-segment-0", encodeEntry ⟨k, v⟩)]
        else alPut [("data-segment-0", encodeEntry ⟨k, v⟩)] (segPath 0) []) =
        [("data-segment-0", encodeEntry ⟨k, v⟩)] := rfl
  have hsort : sortByName [("data-segment-0", encodeEntry ⟨k, v⟩)] =
      [("data-segment-0", encodeEntry ⟨k, v⟩)] := rfl
  simp only [NewDb, hmax, recoverDb, hdir1, hsort]
  exact hrec _

/-- Witness for C8: a 1-byte key with an 8181-byte value gives a frame of
8194 bytes, and recovery over it fails. -/
theorem kv_large_frame_breaks_recovery_w :
    (8192 < 12 + ([107] : Bytes).length + (List.replicate 8181 0).length ∧
      12 + ([107] : Bytes).length + (List.replicate 8181 0).length <
        4294967296) ∧
    NewDb [("data-segment-0", encodeEntry ⟨[107], List.replicate 8181 0⟩)] 100 =
      .error .corrupted :=
  ⟨⟨by norm_num, by norm_num⟩,
   kv_large_frame_breaks_recovery [107] (List.replicate 8181 0)
     (by norm_num) (by norm_num) 100⟩

/-- Witness for C1 at the fresh engine dbFresh with k = [1,2], v = [3,4,5]. -/
theorem kv_put_then_get_w :
    (dbFresh.outPath = segPath dbFresh.outSegment ∧
      alGet dbFresh.dir dbFresh.outPath = some [] ∧
      ([] : Bytes).length = dbFresh.outOffset ∧
      alGet dbFresh.dir (segPath (dbFresh.outSegment + 1)) = none ∧
      12 + [1, 2].length + [3, 4, 5].length < 4294967296) ∧
    (Put dbFresh [1, 2] [3, 4, 5] true).1 = none ∧
    (GetS (Put dbFresh [1, 2] [3, 4, 5] true).2 [1, 2]).1 = .ok [3, 4, 5] :=
  ⟨⟨by decide, by decide, by decide, by decide, by decide⟩,
   kv_put_then_get dbFresh [1, 2] [3, 4, 5] [] (by decide) (by decide)
     (by decide) (by decide) (by decide)⟩

namespace LB

theorem minByteLoop_const (l : List (String × Int)) (cur : String) (m : Int)
    (h : ∀ p ∈ l, m ≤ p.2) : minByteLoop l cur m = cur := by
  induction l generalizing cur with
  | nil => rfl
  | cons p rest ih =>
    obtain ⟨s, b⟩ := p
    have hb : ¬ b < m := not_lt.mpr (h (s, b) (by simp))
    simp only [minByteLoop, hb, if_false]
    exact ih cur fun q hq => h q (by simp [hq])

theorem minByteLoop_finds_min (l : List (String × Int)) (cur : String) (m : Int)
    (h : ∃ p ∈ l, p.2 < m) :
    ∃ p ∈ l, minByteLoop l cur m = p.1 ∧ p.2 < m ∧ ∀ q ∈ l, p.2 ≤ q.2 := by
  induction l generalizing cur m with
  | nil => simp at h
  | cons hd rest ih =>
    obtain ⟨s, b⟩ := hd
    by_cases hb : b < m
    · simp only [minByteLoop, hb, if_true]
      by_cases hrest : ∃ q ∈ rest, q.2 < b
      · obtain ⟨p, hp, hloop, hlt, hmin⟩ := ih s b hrest
        refine ⟨p, by simp [hp], hloop, lt_trans hlt hb, ?_⟩
        intro q hq
        rcases List.mem_cons.mp hq with rfl | hq'
        · exact hlt.le
        · exact hmin q hq'
      · push_neg at hrest
        refine ⟨(s, b), by simp, minByteLoop_const rest s b hrest, hb, ?_⟩
        intro q hq
        rcases List.mem_cons.mp hq with rfl | hq'
        · exact le_refl _
        · exact hrest q hq'
    · simp only [minByteLoop, hb, if_false]
      have h' : ∃ q ∈ rest, q.2 < m := by
        obtain ⟨p, hp, hlt⟩ := h
        rcases List.mem_cons.mp hp with rfl | hp'
        · exact absurd hlt hb
        · exact ⟨p, hp', hlt⟩
      obtain ⟨p, hp, hloop, hlt, hmin⟩ := ih cur m h'
      refine ⟨p, by simp [hp], hloop, hlt, ?_⟩
      intro q hq
      rcases List.mem_cons.mp hq with rfl | hq'
      · exact le_trans hlt.le (not_lt.mp hb)
      · exact hmin q hq'

end LB

/-- C9: over a nonempty pool whose counters are all below math.MaxInt64,
getMinByteServer returns some pool member whose accumulated byte counter is
minimal (the first such member in iteration order), and forward answers
every transport failure with status 503 Service Unavailable and a non-nil
error. -/
theorem lb_routes_to_min_and_503 (sb : List (String × Int)) (hne : sb ≠ [])
    (hb : ∀ p ∈ sb, p.2 < LB.maxInt64) :
    (∃ p ∈ sb, LB.getMinByteServer sb = p.1 ∧ ∀ q ∈ sb, p.2 ≤ q.2) ∧
    (∀ dst trace copyOk sb2,
      (LB.forward dst trace none copyOk sb2).rw.statusWritten = some 503 ∧
      (LB.forward dst trace none copyOk sb2).failed = true) := by
  constructor
  · have hex : ∃ p ∈ sb, p.2 < LB.maxInt64 := by
      rcases sb with _ | ⟨p, rest⟩
      · exact absurd rfl hne
      · exact ⟨p, by simp, hb p (by simp)⟩
    obtain ⟨p, hp, hloop, _, hmin⟩ :=
      LB.minByteLoop_finds_min sb "" LB.maxInt64 hex
    exact ⟨p, hp, hloop, hmin⟩
  · intro dst trace copyOk sb2
    exact ⟨rfl, rfl⟩

/-- Witness for C9 on a one-server pool with counter 0. -/
theorem lb_routes_to_min_and_503_w :
    (([("server1:8080", (0 : Int))] : List (String × Int)) ≠ [] ∧
      ∀ p ∈ ([("server1:8080", (0 : Int))] : List (String × Int)),
        p.2 < LB.maxInt64) ∧
    (∃ p ∈ ([("server1:8080", (0 : Int))] : List (String × Int)),
      LB.getMinByteServer [("server1:8080", (0 : Int))] = p.1 ∧
      ∀ q ∈ ([("server1:8080", (0 : Int))] : List (String × Int)),
        p.2 ≤ q.2) :=
  ⟨⟨by decide, by decide⟩,
   (lb_routes_to_min_and_503 [("server1:8080", (0 : Int))] (by decide)
     (by decide)).1⟩

theorem listPre_self (l : List Char) : listPre l l = true := by
  induction l with
  | nil => rfl
  | cons a as ih => simp [listPre, ih]

theorem goStartsWith_self (s : String) : goStartsWith s s = true :=
  listPre_self s.data

theorem mem_insertStr (x s : String) (l : List String) :
    x ∈ insertStr s l ↔ x = s ∨ x ∈ l := by
  induction l with
  | nil => simp [insertStr]
  | cons t ts ih =>
    by_cases h : strLtB s t
    · simp [insertStr, h]
    · simp [insertStr, h, ih]
      tauto

theorem mem_sortStrings (x : String) (l : List String) :
    x ∈ sortStrings l ↔ x ∈ l := by
  induction l with
  | nil => simp [sortStrings]
  | cons t ts ih =>
    simp only [sortStrings, List.foldr_cons] at *
    rw [mem_insertStr, ih]
    simp

/-- C3 amended: the active segment's own file is never in the merge set, and
a directory file is in the merge set exactly when its name carries the
segment prefix but does not extend defaultOutFileName + "-" + Itoa outSegment
as a string prefix; so files like data-segment-10 are excluded when the
active id is 1, not only the active file itself. -/
theorem kv_merge_set_membership (files : List (String × Bytes)) (out : Nat) :
    segPath out ∉ GetFilesToMerge files out ∧
    ∀ f ∈ files, (f.1 ∈ GetFilesToMerge files out ↔
      goStartsWith f.1 segNameDash = true ∧
      goStartsWith f.1 (segNameDash ++ Nat.repr out) = false) := by
  constructor
  · intro hmem
    unfold GetFilesToMerge at hmem
    rw [mem_sortStrings, List.mem_filterMap] at hmem
    obtain ⟨a, ha, hfa⟩ := hmem
    split at hfa
    · rename_i hcond
      rw [Option.some_inj] at hfa
      rw [hfa] at hcond
      rw [Bool.and_eq_true, Bool.not_eq_true'] at hcond
      exact absurd hcond.2 (by simp [segPath, goStartsWith_self])
    · exact absurd hfa (by simp)
  · intro f hf
    unfold GetFilesToMerge
    rw [mem_sortStrings, List.mem_filterMap]
    constructor
    · rintro ⟨a, ha, hfa⟩
      split at hfa
      · rename_i hcond
        rw [Option.some_inj] at hfa
        rw [hfa] at hcond
        rw [Bool.and_eq_true, Bool.not_eq_true'] at hcond
        exact hcond
      · exact absurd hfa (by simp)
    · rintro ⟨h1, h2⟩
      exact ⟨f, hf, by simp [h1, h2]⟩

/-- Witness for C3 at the three-file directory filesTen with active id 1:
data-segment-10 is a directory file excluded from the merge set because its
name extends data-segment-1. -/
theorem kv_merge_set_membership_w :
    (("data-segment-10", ([] : Bytes)) ∈ filesTen) ∧
    (("data-segment-10" : String) ∈ GetFilesToMerge filesTen 1 ↔
      goStartsWith "data-segment-10" segNameDash = true ∧
      goStartsWith "data-segment-10" (segNameDash ++ Nat.repr 1) = false) :=
  ⟨by decide,
   (kv_merge_set_membership filesTen 1).2 ("data-segment-10", []) (by decide)⟩

theorem mapsSame_alPut {i f : List (Bytes × Nat)} (h : MapsSame i f)
    (key : Bytes) (x y : Nat) : MapsSame (alPut i key x) (alPut f key y) := by
  intro k
  rw [alGet_alPut_isSome, alGet_alPut_isSome]
  exact or_congr Iff.rfl (h k)

theorem samedom_applyEntries (db : Db) (seg : Nat) (l : List (Nat × Entry))
    (h : SameDom db) : SameDom (applyEntries db seg l) := by
  induction l generalizing db with
  | nil => exact h
  | cons oe rest ih =>
    simp only [applyEntries, List.foldl_cons] at *
    exact ih _ (mapsSame_alPut h oe.2.key oe.1 seg)

theorem samedom_recoverGo (files : List (String × Bytes)) (db db' : Db)
    (h : SameDom db) (heq : recoverGo files db = .ok db') : SameDom db' := by
  induction files generalizing db with
  | nil =>
    simp only [recoverGo, Except.ok.injEq] at heq
    exact heq ▸ h
  | cons fc rest ih =>
    obtain ⟨name, content⟩ := fc
    simp only [recoverGo] at heq
    split at heq
    · split at heq
      · exact absurd heq (by simp)
      · split at heq
        · exact absurd heq (by simp)
        · refine ih _ ?_ heq
          exact samedom_applyEntries _ _ _ h
    · exact ih _ h heq

theorem samedom_newDb (d : List (String × Bytes)) (m : Nat) (db : Db)
    (h : NewDb d m = .ok db) : SameDom db := by
  unfold NewDb at h
  split at h
  · exact absurd h (by simp)
  · exact samedom_recoverGo _ _ _ (fun k => Iff.rfl) h

theorem samedom_putRotate (db : Db) (content : Bytes) (h : SameDom db) :
    SameDom (putRotate db content) := by
  unfold putRotate
  split
  · exact h
  · exact h

theorem samedom_putAppend (db1 : Db) (k v : Bytes) (w : Bool)
    (h : SameDom db1) : SameDom (putAppend db1 k v w).2 := by
  unfold putAppend
  split
  · exact mapsSame_alPut h k _ _
  · exact h

theorem samedom_put (db : Db) (k v : Bytes) (w : Bool) (h : SameDom db) :
    SameDom (Put db k v w).2 := by
  unfold Put
  split
  · exact h
  · exact samedom_putAppend _ k v w (samedom_putRotate _ _ h)

theorem samedom_getS (db : Db) (k : Bytes) (h : SameDom db) :
    SameDom (GetS db k).2 := by
  rw [getS_snd]
  exact h

theorem samedom_mergeWriteLoop (l : List (Bytes × Entry)) (db : Db)
    (off : Nat) (seg0 : Bytes) (h : SameDom db) :
    SameDom (mergeWriteLoop db off seg0 l).1 := by
  induction l generalizing db off seg0 with
  | nil => exact h
  | cons pe rest ih =>
    obtain ⟨pk, e⟩ := pe
    simp only [mergeWriteLoop]
    apply ih
    split
    · rename_i seg hseg
      split
      · exact mapsSame_alPut h e.key _ _
      · exact h
    · exact h

theorem samedom_merge (db : Db) (h : SameDom db) :
    SameDom (mergeSegmentFiles db).db := by
  simp only [mergeSegmentFiles]
  split
  · exact h
  · split
    · exact h
    · split
      · exact h
      · split
        · exact h
        · exact samedom_mergeWriteLoop _ _ _ _ h

/-- C7: in every reachable engine state (after open, Puts with either write
outcome, Gets and merge passes) the offset index and the segment index hold
exactly the same keys. -/
theorem kv_indices_same_keys (db : Db) (h : Reach db) : SameDom db := by
  induction h with
  | init d m db0 h0 => exact samedom_newDb d m db0 h0
  | put db0 k v w _ ih => exact samedom_put db0 k v w ih
  | get db0 k _ ih => exact samedom_getS db0 k ih
  | merge db0 _ ih => exact samedom_merge db0 ih

/-- Witness for C7: the state reached by opening an empty directory. -/
theorem kv_indices_same_keys_w : Reach dbFresh ∧ SameDom dbFresh :=
  ⟨Reach.init [] 10 dbFresh (by rfl),
   kv_indices_same_keys dbFresh (Reach.init [] 10 dbFresh (by rfl))⟩

end Lab4
